import Mathlib

/-!
Verification of the Mist API proxy (`src/main.go`): a single-upstream
reverse proxy that injects a fixed `Authorization: Token <credential>`
header, strips hop-by-hop headers in both directions, serves a constant
`/health` endpoint, maps transport failures to a fixed 502 response, and
logs one access record per request.

The Go code is shallowly embedded: `http.Header` (a map from canonical
MIME header keys to value lists) is an association list, the stdlib
helpers the program calls (`textproto.CanonicalMIMEHeaderKey`,
`Header.Set/Del/Get`, `net.SplitHostPort`, `strings.TrimSpace`, the
`httputil.NewSingleHostReverseProxy` director and `http.Error`) are
translated function by function, and the handlers are modelled as the
sequences of response-writer operations they perform.
-/

namespace MistProxy

/-! ### ASCII case maps (Go's `toLower`/`toUpper` on header bytes) -/

/-- Lower-casing of an ASCII code point, as Go does on header key bytes. -/
def lowerNat (n : Nat) : Nat := if 65 ≤ n ∧ n ≤ 90 then n + 32 else n

/-- Upper-casing of an ASCII code point. -/
def upperNat (n : Nat) : Nat := if 97 ≤ n ∧ n ≤ 122 then n - 32 else n

/-- ASCII lower-casing of a character (non-letters unchanged). -/
def toLowerAscii (c : Char) : Char :=
  if 65 ≤ c.toNat ∧ c.toNat ≤ 90 then Char.ofNat (c.toNat + 32) else c

/-- ASCII upper-casing of a character (non-letters unchanged). -/
def toUpperAscii (c : Char) : Char :=
  if 97 ≤ c.toNat ∧ c.toNat ≤ 122 then Char.ofNat (c.toNat - 32) else c

/-- ASCII lower-casing of a string, the reference notion of
"the same header name under another letter-casing". -/
def asciiLower (s : String) : String := ⟨s.data.map toLowerAscii⟩

theorem toNat_ofNat_valid {n : Nat} (h : n < 55296) : (Char.ofNat n).toNat = n := by
  have hv : n.isValidChar := Or.inl h
  simp only [Char.ofNat, hv, dif_pos, Char.ofNatAux, Char.toNat]
  rfl

theorem char_eq_of_toNat_eq {c d : Char} (h : c.toNat = d.toNat) : c = d := by
  apply Char.ext
  exact UInt32.toNat.inj h

theorem toNat_toLowerAscii (c : Char) : (toLowerAscii c).toNat = lowerNat c.toNat := by
  unfold toLowerAscii lowerNat
  split
  · next h => exact toNat_ofNat_valid (by omega)
  · rfl

theorem toNat_toUpperAscii (c : Char) : (toUpperAscii c).toNat = upperNat c.toNat := by
  unfold toUpperAscii upperNat
  split
  · next h => exact toNat_ofNat_valid (by omega)
  · rfl

theorem upper_toLowerAscii (c : Char) : toUpperAscii (toLowerAscii c) = toUpperAscii c := by
  apply char_eq_of_toNat_eq
  rw [toNat_toUpperAscii, toNat_toUpperAscii, toNat_toLowerAscii]
  unfold lowerNat upperNat
  split <;> split <;> first | rfl | omega | (split <;> omega)

theorem lower_toLowerAscii (c : Char) : toLowerAscii (toLowerAscii c) = toLowerAscii c := by
  apply char_eq_of_toNat_eq
  rw [toNat_toLowerAscii, toNat_toLowerAscii]
  unfold lowerNat
  split <;> (try split) <;> omega

theorem toLowerAscii_eq_dash (c : Char) : (toLowerAscii c = '-') ↔ (c = '-') := by
  constructor
  · intro h
    have h2 := congrArg Char.toNat h
    rw [toNat_toLowerAscii] at h2
    apply char_eq_of_toNat_eq
    unfold lowerNat at h2
    split at h2 <;> simp_all
  · intro h
    subst h
    decide

/-! ### `textproto.CanonicalMIMEHeaderKey` -/

/-- The valid header-field bytes of Go's `textproto.validHeaderFieldByte`:
digits, ASCII letters, and the token specials
`! # $ % & ' * + - . ^ _ \x60 | ~`. -/
def ValidHeaderFieldProp (n : Nat) : Prop :=
  (48 ≤ n ∧ n ≤ 57) ∨ (65 ≤ n ∧ n ≤ 90) ∨ (97 ≤ n ∧ n ≤ 122) ∨
  n = 33 ∨ n = 35 ∨ n = 36 ∨ n = 37 ∨ n = 38 ∨ n = 39 ∨ n = 42 ∨
  n = 43 ∨ n = 45 ∨ n = 46 ∨ n = 94 ∨ n = 95 ∨ n = 96 ∨ n = 124 ∨ n = 126

instance (n : Nat) : Decidable (ValidHeaderFieldProp n) := by
  unfold ValidHeaderFieldProp
  infer_instance

/-- Go `textproto.validHeaderFieldByte`. -/
def validHeaderFieldByte (c : Char) : Bool := decide (ValidHeaderFieldProp c.toNat)

/-- The camel-casing loop of Go's `textproto.canonicalMIMEHeaderKey`:
upper-case a letter at the start or after a hyphen, lower-case it
otherwise; the boolean is Go's `upper` flag. -/
def canonChars : Bool → List Char → List Char
  | _, [] => []
  | upper, c :: cs =>
    let c' := if upper then toUpperAscii c else toLowerAscii c
    c' :: canonChars (c' = '-') cs

/-- Go `textproto.CanonicalMIMEHeaderKey`: if every byte is a valid
header-field byte, return the canonical (camel-cased) form, otherwise
return the string unchanged. -/
def canonicalMIMEHeaderKey (s : String) : String :=
  if s.data.all validHeaderFieldByte then ⟨canonChars true s.data⟩ else s

example : canonicalMIMEHeaderKey "authorization" = "Authorization" := by decide
example : canonicalMIMEHeaderKey "CONNECTION" = "Connection" := by decide
example : canonicalMIMEHeaderKey "keep-alive" = "Keep-Alive" := by decide
example : canonicalMIMEHeaderKey "TE" = "Te" := by decide
example : canonicalMIMEHeaderKey "x y" = "x y" := by decide

/-! ### `http.Header` -/

/-- Go's `http.Header` is `map[string][]string`, keyed by canonical MIME
header keys.  It is embedded as an association list of
(key, ordered value list) entries; a well-formed header has at most one
entry per key, which is the map invariant. -/
abbrev Header : Type := List (String × List String)

/-- Go `Header.Del`: delete the entry stored under the canonical form of
the given key.  Entries stored under any other literal key string are
untouched. -/
def Header.del (h : Header) (key : String) : Header :=
  List.filter (fun p => p.1 ≠ canonicalMIMEHeaderKey key) h

/-- Go `Header.Set`: replace the entry under the canonical form of the
given key with the single given value (inserting it if absent). -/
def Header.set (h : Header) (key value : String) : Header :=
  if List.any h (fun p => p.1 = canonicalMIMEHeaderKey key) then
    List.map (fun p =>
      if p.1 = canonicalMIMEHeaderKey key then (canonicalMIMEHeaderKey key, [value]) else p) h
  else
    h ++ [(canonicalMIMEHeaderKey key, [value])]

/-- Go `Header.Get`: the first value stored under the canonical form of
the given key, or `""` when absent. -/
def Header.get (h : Header) (key : String) : String :=
  match List.find? (fun p => p.1 = canonicalMIMEHeaderKey key) h with
  | some (_, v :: _) => v
  | _ => ""

/-- The ordered value list stored under a literal key (map lookup without
canonicalisation), `[]` when absent. -/
def Header.values (h : Header) (key : String) : List String :=
  match List.find? (fun p => p.1 = key) h with
  | some p => p.2
  | none => []

/-- The eight header names deleted by `stripHopHeaders`, exactly as they
are written in `src/main.go` (all already in canonical MIME form). -/
def hopHeaders : List String :=
  ["Connection", "Keep-Alive", "Proxy-Authenticate", "Proxy-Authorization",
   "Te", "Trailer", "Transfer-Encoding", "Upgrade"]

/-- Go `stripHopHeaders`: `header.Del(h)` for each of the eight names. -/
def stripHopHeaders (h : Header) : Header :=
  List.foldl Header.del h hopHeaders

/-- Every name in the strip list is already a canonical MIME key. -/
theorem hopHeaders_canonical :
    ∀ n ∈ hopHeaders, canonicalMIMEHeaderKey n = n := by decide

/-- The function `stripHopHeaders` deletes exactly the entries whose literal key is one
of the eight canonical hop-by-hop names, in one pass. -/
theorem stripHopHeaders_eq_filter (h : Header) :
    stripHopHeaders h = List.filter (fun p => decide (p.1 ∉ hopHeaders)) h := by
  show List.foldl Header.del h hopHeaders = _
  simp only [hopHeaders, List.foldl, Header.del]
  have c1 : canonicalMIMEHeaderKey "Connection" = "Connection" := by decide
  have c2 : canonicalMIMEHeaderKey "Keep-Alive" = "Keep-Alive" := by decide
  have c3 : canonicalMIMEHeaderKey "Proxy-Authenticate" = "Proxy-Authenticate" := by decide
  have c4 : canonicalMIMEHeaderKey "Proxy-Authorization" = "Proxy-Authorization" := by decide
  have c5 : canonicalMIMEHeaderKey "Te" = "Te" := by decide
  have c6 : canonicalMIMEHeaderKey "Trailer" = "Trailer" := by decide
  have c7 : canonicalMIMEHeaderKey "Upgrade" = "Upgrade" := by decide
  have c8 : canonicalMIMEHeaderKey "Transfer-Encoding" = "Transfer-Encoding" := by decide
  rw [c1, c2, c3, c4, c5, c6, c7, c8]
  rw [List.filter_filter, List.filter_filter, List.filter_filter, List.filter_filter,
      List.filter_filter, List.filter_filter, List.filter_filter]
  apply List.filter_congr
  intro p _
  rw [Bool.eq_iff_iff]
  simp only [Bool.and_eq_true, Bool.not_eq_true', decide_eq_false_iff_not, decide_not,
    List.mem_cons, List.not_mem_nil, or_false, decide_eq_true_eq]
  tauto

/-- Values under a key that is not a hop-by-hop name survive the strip. -/
theorem values_stripHopHeaders (h : Header) (key : String) (hk : key ∉ hopHeaders) :
    Header.values (stripHopHeaders h) key = Header.values h key := by
  rw [stripHopHeaders_eq_filter]
  unfold Header.values
  rw [List.find?_filter]
  have hpred : (fun p : String × List String =>
      decide ((decide (p.1 ∉ hopHeaders)) = true ∧ (decide (p.1 = key)) = true)) =
      (fun p : String × List String => decide (p.1 = key)) := by
    funext p
    by_cases hp : p.1 = key
    · rw [hp]
      simp [hk]
    · simp [hp]
  rw [hpred]

/-- The entry found under key `K'` after the map-or-append update that
`Header.set` performs for key `K`. -/
theorem find?_insert (K v K' : String) (h : Header) :
    List.find? (fun p => p.1 = K')
      (if List.any h (fun p => p.1 = K) then
        List.map (fun p => if p.1 = K then (K, [v]) else p) h
      else h ++ [(K, [v])]) =
    if K' = K then some (K, [v]) else List.find? (fun p => p.1 = K') h := by
  by_cases ha : List.any h (fun p => p.1 = K) = true
  · rw [if_pos ha, List.find?_map]
    by_cases hc : K' = K
    · subst hc
      rw [if_pos rfl]
      have hpred : ((fun p : String × List String => decide (p.1 = K')) ∘
          (fun p => if p.1 = K' then (K', [v]) else p)) =
          (fun p => decide (p.1 = K')) := by
        funext p
        by_cases hp : p.1 = K' <;> simp [Function.comp, hp]
      rw [hpred]
      obtain ⟨x, hx, hpx⟩ := List.any_eq_true.mp ha
      cases hf : List.find? (fun p => p.1 = K') h with
      | none =>
        exact absurd hpx (by simpa using List.find?_eq_none.mp hf x hx)
      | some p₀ =>
        have h1 := List.find?_some hf
        have hp₀ : p₀.1 = K' := by simpa using h1
        simp [Option.map, hp₀]
    · rw [if_neg hc]
      have hpred : ((fun p : String × List String => decide (p.1 = K')) ∘
          (fun p => if p.1 = K then (K, [v]) else p)) =
          (fun p => decide (p.1 = K')) := by
        funext p
        by_cases hp : p.1 = K
        · simp [Function.comp, hp, fun hx : K = K' => hc hx.symm]
        · simp [Function.comp, hp]
      rw [hpred]
      cases hf : List.find? (fun p => p.1 = K') h with
      | none => rfl
      | some p₀ =>
        have h1 := List.find?_some hf
        have hp₀ : p₀.1 = K' := by simpa using h1
        have hne : p₀.1 ≠ K := by
          rw [hp₀]
          exact hc
        simp [Option.map, hne]
  · rw [if_neg ha, List.find?_append]
    have hnone : List.find? (fun p => p.1 = K) h = none := by
      rw [List.find?_eq_none]
      intro x hx
      simp only [decide_eq_true_eq]
      intro hx1
      exact absurd (List.any_eq_true.mpr ⟨x, hx, by simpa using hx1⟩) ha
    by_cases hc : K' = K
    · subst hc
      rw [hnone]
      simp [List.find?]
    · have hsym : ¬(K = K') := fun hx => hc hx.symm
      cases hf : List.find? (fun p => p.1 = K') h with
      | none => simp [List.find?, hc, hsym, Option.orElse]
      | some p₀ => simp [Option.orElse, hc]

/-- Reading through `Header.set`: the set key reads back the set
value, any canonically distinct key is unaffected. -/
theorem get_set (h : Header) (key v key' : String) :
    Header.get (Header.set h key v) key' =
      if canonicalMIMEHeaderKey key' = canonicalMIMEHeaderKey key then v
      else Header.get h key' := by
  unfold Header.get Header.set
  rw [find?_insert]
  by_cases hc : canonicalMIMEHeaderKey key' = canonicalMIMEHeaderKey key
  · simp [hc]
  · simp [hc]

/-- Reading a non-hop-by-hop key is unchanged by the strip. -/
theorem get_stripHopHeaders (h : Header) (key : String)
    (hk : canonicalMIMEHeaderKey key ∉ hopHeaders) :
    Header.get (stripHopHeaders h) key = Header.get h key := by
  rw [stripHopHeaders_eq_filter]
  unfold Header.get
  rw [List.find?_filter]
  have hpred : (fun p : String × List String =>
      decide ((decide (p.1 ∉ hopHeaders)) = true ∧
        (decide (p.1 = canonicalMIMEHeaderKey key)) = true)) =
      (fun p : String × List String => decide (p.1 = canonicalMIMEHeaderKey key)) := by
    funext p
    by_cases hp : p.1 = canonicalMIMEHeaderKey key
    · rw [hp]
      simp [hk]
    · simp [hp]
  rw [hpred]

/-- Entries whose key a boolean predicate keeps are unchanged by
`Header.set` on a key the predicate rejects. -/
theorem filter_set (h : Header) (key v : String) (P : String → Bool)
    (hP : P (canonicalMIMEHeaderKey key) = false) :
    List.filter (fun p => P p.1) (Header.set h key v) =
      List.filter (fun p => P p.1) h := by
  unfold Header.set
  by_cases ha : List.any h (fun p => p.1 = canonicalMIMEHeaderKey key) = true
  · rw [if_pos ha, List.filter_map]
    have hpred : ((fun p : String × List String => P p.1) ∘
        (fun p => if p.1 = canonicalMIMEHeaderKey key
          then (canonicalMIMEHeaderKey key, [v]) else p)) =
        (fun p : String × List String => P p.1) := by
      funext p
      by_cases hp : p.1 = canonicalMIMEHeaderKey key
      · simp [Function.comp, hp, hP]
      · simp [Function.comp, hp]
    rw [hpred]
    have hid : ∀ p ∈ List.filter (fun p : String × List String => P p.1) h,
        (if p.1 = canonicalMIMEHeaderKey key
          then (canonicalMIMEHeaderKey key, [v]) else p) = id p := by
      intro p hp
      have hPp : P p.1 = true := by
        have := List.of_mem_filter hp
        simpa using this
      have : p.1 ≠ canonicalMIMEHeaderKey key := by
        intro hx
        rw [hx, hP] at hPp
        exact Bool.false_ne_true hPp
      simp [this]
    rw [List.map_congr_left hid, List.map_id]
  · rw [if_neg ha, List.filter_append]
    simp [List.filter, hP]

/-- Entries whose key a boolean predicate keeps are unchanged by the
strip whenever the predicate rejects all eight hop-by-hop names. -/
theorem filter_stripHopHeaders (h : Header) (P : String → Bool)
    (hP : ∀ k ∈ hopHeaders, P k = false) :
    List.filter (fun p => P p.1) (stripHopHeaders h) =
      List.filter (fun p => P p.1) h := by
  rw [stripHopHeaders_eq_filter, List.filter_filter]
  apply List.filter_congr
  intro p _
  by_cases hp : P p.1 = true
  · have hmem : p.1 ∉ hopHeaders := by
      intro hx
      rw [hP p.1 hx] at hp
      exact Bool.false_ne_true hp
    simp [hp, hmem]
  · rw [Bool.not_eq_true] at hp
    simp [hp]

/-- Applying the strip twice gives the same collection as applying it
once. -/
theorem stripHopHeaders_idem (h : Header) :
    stripHopHeaders (stripHopHeaders h) = stripHopHeaders h := by
  rw [stripHopHeaders_eq_filter, stripHopHeaders_eq_filter, List.filter_filter]
  apply List.filter_congr
  intro p _
  exact Bool.and_self _

/-- Valid header bytes are valid irrespective of ASCII case. -/
theorem validHeaderFieldByte_toLowerAscii (c : Char) :
    validHeaderFieldByte (toLowerAscii c) = validHeaderFieldByte c := by
  unfold validHeaderFieldByte
  rw [toNat_toLowerAscii]
  apply decide_eq_decide.mpr
  unfold ValidHeaderFieldProp lowerNat
  split <;> omega

/-- The validity scan and the camel-casing loop of
`canonicalMIMEHeaderKey` are both determined by the lower-cased
characters. -/
theorem canonChars_eq_of_lower_eq (s t : List Char)
    (h : s.map toLowerAscii = t.map toLowerAscii) :
    s.all validHeaderFieldByte = t.all validHeaderFieldByte ∧
    ∀ u, canonChars u s = canonChars u t := by
  induction s generalizing t with
  | nil =>
    cases t with
    | nil => exact ⟨rfl, fun _ => rfl⟩
    | cons b t' => simp at h
  | cons a s' ih =>
    cases t with
    | nil => simp at h
    | cons b t' =>
      simp only [List.map_cons, List.cons.injEq] at h
      obtain ⟨hab, htail⟩ := h
      obtain ⟨ihv, ihc⟩ := ih t' htail
      constructor
      · simp only [List.all_cons, ihv]
        have : validHeaderFieldByte a = validHeaderFieldByte b := by
          rw [← validHeaderFieldByte_toLowerAscii a, ← validHeaderFieldByte_toLowerAscii b, hab]
        rw [this]
      · intro u
        have hup : toUpperAscii a = toUpperAscii b := by
          rw [← upper_toLowerAscii a, ← upper_toLowerAscii b, hab]
        have hlo : toLowerAscii a = toLowerAscii b := by
          rw [← lower_toLowerAscii a, ← lower_toLowerAscii b, hab]
        cases u with
        | true => simp [canonChars, hup, ihc]
        | false => simp [canonChars, hlo, ihc]

/-- Two strings with the same ASCII lower-casing have the same canonical
MIME key, provided one of them consists of valid header bytes. -/
theorem canonicalKey_eq_of_asciiLower_eq (s t : String)
    (ht : t.data.all validHeaderFieldByte = true)
    (h : asciiLower s = asciiLower t) :
    canonicalMIMEHeaderKey s = canonicalMIMEHeaderKey t := by
  have hdata : s.data.map toLowerAscii = t.data.map toLowerAscii := by
    have := congrArg String.data h
    simpa [asciiLower] using this
  obtain ⟨hv, hc⟩ := canonChars_eq_of_lower_eq s.data t.data hdata
  unfold canonicalMIMEHeaderKey
  rw [hv, ht, if_pos rfl, if_pos rfl, hc true]

/-! ### URLs, requests, and the reverse-proxy director -/

/-- The fields of Go's `url.URL` that the proxy reads or writes. -/
structure URL where
  scheme : String
  host : String
  path : String
  rawPath : String
  rawQuery : String
deriving DecidableEq

/-- Go `url.URL.EscapedPath`, under the `url.URL` invariant that a
non-empty `RawPath` is a valid encoding of `Path`.  (When `RawPath` is
empty Go re-escapes `Path`; the only facts about the escaped path used
below are emptiness and whether it begins or ends with `/`, which
percent-escaping preserves.) -/
def escapedPath (u : URL) : String :=
  if u.rawPath = "" then u.path else u.rawPath

/-- Go `strings.HasPrefix`. -/
def hasPrefixGo (s pre : String) : Bool := List.isPrefixOf pre.data s.data

/-- Go `strings.HasSuffix`. -/
def hasSuffixGo (s suf : String) : Bool := List.isSuffixOf suf.data s.data

/-- Go's byte slice `s[1:]`, used on strings known to start with the
one-byte character `/`, where it coincides with dropping one character. -/
def dropFirst (s : String) : String := ⟨List.drop 1 s.data⟩

/-- Go `httputil.singleJoiningSlash`. -/
def singleJoiningSlash (a b : String) : String :=
  if hasSuffixGo a "/" ∧ hasPrefixGo b "/" then a ++ dropFirst b
  else if ¬hasSuffixGo a "/" ∧ ¬hasPrefixGo b "/" then a ++ "/" ++ b
  else a ++ b

/-- Go `httputil.joinURLPath`, returning the new `(Path, RawPath)`. -/
def joinURLPath (a b : URL) : String × String :=
  if a.rawPath = "" ∧ b.rawPath = "" then (singleJoiningSlash a.path b.path, "")
  else if hasSuffixGo (escapedPath a) "/" ∧ hasPrefixGo (escapedPath b) "/" then
    (a.path ++ dropFirst b.path, escapedPath a ++ dropFirst (escapedPath b))
  else if ¬hasSuffixGo (escapedPath a) "/" ∧ ¬hasPrefixGo (escapedPath b) "/" then
    (a.path ++ "/" ++ b.path, escapedPath a ++ "/" ++ escapedPath b)
  else (a.path ++ b.path, escapedPath a ++ escapedPath b)

/-- Go `httputil.rewriteRequestURL` (the whole
`NewSingleHostReverseProxy` director): graft the target's origin and
path prefix onto the request URL and merge the query strings. -/
def rewriteRequestURL (u target : URL) : URL :=
  { u with
    scheme := target.scheme
    host := target.host
    path := (joinURLPath target u).1
    rawPath := (joinURLPath target u).2
    rawQuery :=
      if target.rawQuery = "" ∨ u.rawQuery = "" then target.rawQuery ++ u.rawQuery
      else target.rawQuery ++ "&" ++ u.rawQuery }

/-- The fields of Go's `http.Request` that the proxy reads or writes
(`host` is the `Host` field that turns into the outbound Host header;
the body is carried through as opaque bytes). -/
structure Request where
  method : String
  url : URL
  host : String
  remoteAddr : String
  header : Header
  body : List UInt8
deriving DecidableEq

/-- The `Director` installed by `newMistProxy`: the
`NewSingleHostReverseProxy` director (`rewriteRequestURL`), then
`req.Host = target.Host`, `Set("Authorization", "Token <token>")`,
`Set("Accept", "application/json")`, and `stripHopHeaders`. -/
def mistDirector (target : URL) (token : String) (req : Request) : Request :=
  { req with
    url := rewriteRequestURL req.url target
    host := target.host
    header := stripHopHeaders
      ((req.header.set "Authorization" ("Token " ++ token)).set
        "Accept" "application/json") }

theorem string_empty_append (s : String) : "" ++ s = s := by
  cases s
  rfl

/-- When the target URL is a bare origin (empty path, raw path and
query), the director's URL rewrite keeps the request path intact. -/
theorem joinURLPath_origin (target u : URL)
    (htp : target.path = "") (htrp : target.rawPath = "")
    (hu : hasPrefixGo u.path "/" = true)
    (hurp : u.rawPath = "" ∨ hasPrefixGo u.rawPath "/" = true) :
    (joinURLPath target u).1 = u.path := by
  unfold joinURLPath
  rcases hurp with hrp | hrp
  · rw [if_pos ⟨htrp, hrp⟩]
    unfold singleJoiningSlash
    rw [htp]
    have hsuf : hasSuffixGo "" "/" = false := by decide
    rw [if_neg (by simp [hsuf]), if_neg (by simp [hu]), string_empty_append]
  · have hne : ¬(u.rawPath = "") := by
      intro hx
      rw [hx] at hrp
      exact absurd hrp (by decide)
    rw [if_neg (by intro hx; exact hne hx.2)]
    have hea : escapedPath target = "" := by
      unfold escapedPath
      rw [htrp, if_pos rfl, htp]
    have heb : escapedPath u = u.rawPath := by
      unfold escapedPath
      rw [if_neg hne]
    rw [hea]
    have hsuf : hasSuffixGo "" "/" = false := by decide
    rw [if_neg (by simp [hsuf])]
    rw [if_neg (by simp [heb, hrp])]
    simp only [htp, string_empty_append]

/-- C1: after the request rewrite the outbound `Authorization` header is
exactly `"Token <credential>"`, whatever the client sent. -/
theorem director_authorization (target : URL) (token : String) (req : Request) :
    Header.get (mistDirector target token req).header "Authorization" =
      "Token " ++ token := by
  show Header.get (stripHopHeaders _) "Authorization" = _
  rw [get_stripHopHeaders _ _ (by decide), get_set, if_neg (by decide), get_set,
    if_pos rfl]

/-- C2: for a bare-origin target, the director preserves method, path,
query and body byte for byte; only the origin, the `Host` field, the
`Authorization` and `Accept` headers and the hop-by-hop headers change
(every header a predicate rejecting those names keeps is preserved with
its values and their order). -/
theorem director_preserves_request (target : URL) (token : String) (req : Request)
    (htp : target.path = "") (htrp : target.rawPath = "") (htq : target.rawQuery = "")
    (hu : hasPrefixGo req.url.path "/" = true)
    (hurp : req.url.rawPath = "" ∨ hasPrefixGo req.url.rawPath "/" = true) :
    (mistDirector target token req).method = req.method ∧
    (mistDirector target token req).url.path = req.url.path ∧
    (mistDirector target token req).url.rawQuery = req.url.rawQuery ∧
    (mistDirector target token req).body = req.body ∧
    (mistDirector target token req).url.scheme = target.scheme ∧
    (mistDirector target token req).url.host = target.host ∧
    (mistDirector target token req).host = target.host ∧
    ∀ P : String → Bool, P "Authorization" = false → P "Accept" = false →
      (∀ k ∈ hopHeaders, P k = false) →
      List.filter (fun p => P p.1) (mistDirector target token req).header =
        List.filter (fun p => P p.1) req.header := by
  refine ⟨rfl, ?_, ?_, rfl, rfl, rfl, rfl, ?_⟩
  · exact joinURLPath_origin target req.url htp htrp hu hurp
  · show (if target.rawQuery = "" ∨ req.url.rawQuery = "" then
      target.rawQuery ++ req.url.rawQuery else _) = req.url.rawQuery
    rw [if_pos (Or.inl htq), htq, string_empty_append]
  · intro P hPa hPacc hPhop
    show List.filter _ (stripHopHeaders _) = _
    rw [filter_stripHopHeaders _ _ hPhop,
      filter_set _ _ _ _ (by rw [show canonicalMIMEHeaderKey "Accept" = "Accept" from by decide]; exact hPacc),
      filter_set _ _ _ _ (by rw [show canonicalMIMEHeaderKey "Authorization" = "Authorization" from by decide]; exact hPa)]

/-- The eight strip-list names consist of valid header bytes and are
fixed points of canonicalisation. -/
theorem hopHeaders_valid :
    ∀ n ∈ hopHeaders,
      n.data.all validHeaderFieldByte = true ∧ canonicalMIMEHeaderKey n = n := by
  decide

/-- C3 counterexample: on a header collection whose key is a
non-canonical casing of `Connection`, the filter removes nothing, so a
hop-by-hop header is still present under that letter-casing. -/
theorem strip_case_counterexample :
    asciiLower "connection" = asciiLower "Connection" ∧
    "Connection" ∈ hopHeaders ∧
    stripHopHeaders [("connection", ["keep-alive"])] =
      [("connection", ["keep-alive"])] := by
  decide

/-- C3 amended: on header collections whose keys are canonical MIME keys
(which is what Go's header parsing produces), no letter-casing of any of
the eight hop-by-hop names survives the filter; in general the filter
removes exactly the entries keyed by one of the eight canonical names,
keeping every other entry with its values and their order; and the
filter is idempotent. -/
theorem strip_hop_amended (h : Header)
    (hcanon : ∀ p ∈ h, canonicalMIMEHeaderKey p.1 = p.1) :
    (∀ p ∈ stripHopHeaders h, ∀ n ∈ hopHeaders, asciiLower p.1 ≠ asciiLower n) ∧
    stripHopHeaders h = List.filter (fun p => decide (p.1 ∉ hopHeaders)) h ∧
    stripHopHeaders (stripHopHeaders h) = stripHopHeaders h := by
  refine ⟨?_, stripHopHeaders_eq_filter h, stripHopHeaders_idem h⟩
  intro p hp n hn hlow
  rw [stripHopHeaders_eq_filter] at hp
  have hmem : p ∈ h := List.mem_of_mem_filter hp
  have hnot : p.1 ∉ hopHeaders := by
    have := List.of_mem_filter hp
    simpa using this
  obtain ⟨hnv, hnc⟩ := hopHeaders_valid n hn
  have hck : canonicalMIMEHeaderKey p.1 = canonicalMIMEHeaderKey n :=
    canonicalKey_eq_of_asciiLower_eq p.1 n hnv hlow
  rw [hcanon p hmem, hnc] at hck
  rw [hck] at hnot
  exact hnot hn

/-- A canonical-key header collection used to instantiate the amended C3
statement. -/
def headerW : Header :=
  [("Content-Type", ["application/json"]),
   ("Connection", ["keep-alive"]),
   ("X-Trace", ["a", "b"])]

/-- Witness for the amended C3 statement at a concrete collection. -/
theorem strip_hop_amended_witness :
    (∀ p ∈ headerW, canonicalMIMEHeaderKey p.1 = p.1) ∧
    stripHopHeaders headerW = List.filter (fun p => decide (p.1 ∉ hopHeaders)) headerW ∧
    stripHopHeaders (stripHopHeaders headerW) = stripHopHeaders headerW :=
  ⟨by decide, (strip_hop_amended headerW (by decide)).2.1,
    (strip_hop_amended headerW (by decide)).2.2⟩

/-- A bare-origin upstream target used in witnesses. -/
def targetW : URL := ⟨"https", "api.mist.com", "", "", ""⟩

/-- A concrete inbound request used in witnesses. -/
def requestW : Request :=
  ⟨"POST", ⟨"http", "wrap.local", "/api/v1/sites", "", "limit=5"⟩, "wrap.local",
    "10.0.0.9:51000",
    [("Authorization", ["Token client"]), ("Connection", ["keep-alive"]),
     ("X-Trace", ["t1"])],
    [104, 105]⟩

/-- Witness for C2 at a concrete target and request. -/
theorem director_preserves_request_witness :
    hasPrefixGo requestW.url.path "/" = true ∧
    (mistDirector targetW "sec" requestW).url.path = requestW.url.path ∧
    (mistDirector targetW "sec" requestW).url.rawQuery = requestW.url.rawQuery ∧
    (mistDirector targetW "sec" requestW).body = requestW.body ∧
    List.filter
        (fun p => !(p.1 = "Authorization" ∨ p.1 = "Accept" ∨ p.1 ∈ hopHeaders))
        (mistDirector targetW "sec" requestW).header =
      List.filter
        (fun p => !(p.1 = "Authorization" ∨ p.1 = "Accept" ∨ p.1 ∈ hopHeaders))
        requestW.header := by
  have h := director_preserves_request targetW "sec" requestW rfl rfl rfl
    (by decide) (Or.inl rfl)
  exact ⟨by decide, h.2.1, h.2.2.1, h.2.2.2.1,
    h.2.2.2.2.2.2.2
      (fun k => !(k = "Authorization" ∨ k = "Accept" ∨ k ∈ hopHeaders))
      (by decide) (by decide) (by decide)⟩

/-! ### Response writers, handlers and the logging middleware -/

/-- Go `Header.Add`: append a value to the list under the canonical form
of the key. -/
def Header.add (h : Header) (key value : String) : Header :=
  if List.any h (fun p => p.1 = canonicalMIMEHeaderKey key) then
    List.map (fun p =>
      if p.1 = canonicalMIMEHeaderKey key then (p.1, p.2 ++ [value]) else p) h
  else
    h ++ [(canonicalMIMEHeaderKey key, [value])]

/-- The observable state of Go's `http.ResponseWriter`: response headers,
the written status code (`none` until `WriteHeader` runs) and the body
bytes written so far. -/
structure RW where
  header : Header
  status : Option Nat
  body : String
deriving DecidableEq

/-- A response writer before anything has been written. -/
def RW.empty : RW := ⟨[], none, ""⟩

/-- Go `ResponseWriter.WriteHeader`: the first call fixes the status,
any later call is ignored (the server logs a superfluous-call warning
and drops it). -/
def RW.writeHeader (w : RW) (code : Nat) : RW :=
  match w.status with
  | none => { w with status := some code }
  | some _ => w

/-- Go `ResponseWriter.Write`: an implicit `WriteHeader(200)` happens on
the first write, then the bytes are appended. -/
def RW.write (w : RW) (s : String) : RW :=
  match w.status with
  | none => { w with status := some 200, body := w.body ++ s }
  | some _ => { w with body := w.body ++ s }

/-- The status the client actually receives: the written status, or the
implicit 200 the server sends when the handler finishes without writing
one. -/
def sentStatus (w : RW) : Nat := w.status.getD 200

/-- Go `loggingResponseWriter`: the wrapped writer plus the `statusCode`
field, initialised to `http.StatusOK`. -/
structure LRW where
  rw : RW
  statusCode : Nat
deriving DecidableEq

/-- Go `loggingMiddleware` wraps the underlying writer with
`statusCode: http.StatusOK`. -/
def LRW.init : LRW := ⟨RW.empty, 200⟩

/-- One response-writer operation performed by a handler. -/
inductive WEvent where
  | writeHeader (code : Nat)
  | write (s : String)
  | setHeader (key value : String)
  | delHeader (key : String)
  | addHeader (key value : String)
deriving DecidableEq

/-- Executing one operation against the logging writer:
`loggingResponseWriter.WriteHeader` records the code and forwards it;
every other operation reaches the embedded writer unobserved. -/
def runEvent (l : LRW) : WEvent → LRW
  | .writeHeader code => ⟨l.rw.writeHeader code, code⟩
  | .write s => ⟨l.rw.write s, l.statusCode⟩
  | .setHeader k v => ⟨{ l.rw with header := l.rw.header.set k v }, l.statusCode⟩
  | .delHeader k => ⟨{ l.rw with header := l.rw.header.del k }, l.statusCode⟩
  | .addHeader k v => ⟨{ l.rw with header := l.rw.header.add k v }, l.statusCode⟩

/-- Executing a handler, i.e. the sequence of writer operations it
performs. -/
def runEvents (l : LRW) (evs : List WEvent) : LRW := List.foldl runEvent l evs

/-- Go `healthHandler`: set the JSON content type, write the fixed body.
It never reads the request, so it is a constant sequence. -/
def healthEvents : List WEvent :=
  [.setHeader "Content-Type" "application/json", .write "\x7b\"status\":\"ok\"\x7d"]

/-- The upstream `http.Response` fields the proxy reads. -/
structure Response where
  status : Nat
  header : Header
  body : String
deriving DecidableEq

/-- Go `http.Error`: drop `Content-Length`, set a plain-text content
type and `X-Content-Type-Options: nosniff`, write the status code, then
the message and a newline. -/
def httpErrorEvents (msg : String) (code : Nat) : List WEvent :=
  [.delHeader "Content-Length",
   .setHeader "Content-Type" "text/plain; charset=utf-8",
   .setHeader "X-Content-Type-Options" "nosniff",
   .writeHeader code,
   .write (msg ++ "\n")]

/-- The fixed sanitized message of the proxy's `ErrorHandler`
("failed to connect to the upstream"). -/
def badGatewayMsg : String := "アップストリームへの接続に失敗しました"

/-- Go `httputil.copyHeader`: `Add` every value of every entry. -/
def copyHeaderEvents (h : Header) : List WEvent :=
  List.flatten (List.map (fun p => List.map (fun v => WEvent.addHeader p.1 v) p.2) h)

/-- The proxy handler's writer operations, as a function of the
transport round-trip outcome (`none`: the transport error path runs the
`ErrorHandler` and returns, so no response rewrite happens; `some r`:
`ModifyResponse` strips `r`'s hop-by-hop headers, then the headers,
status code and body are copied to the client). -/
def proxyEvents (up : Option Response) : List WEvent :=
  match up with
  | none => httpErrorEvents badGatewayMsg 502
  | some r =>
    copyHeaderEvents (stripHopHeaders r.header) ++
      [.writeHeader r.status, .write r.body]

/-- The mux of `main`: the exact path `/health` goes to the health
handler, everything else to the proxy. -/
def muxEvents (up : Option Response) (req : Request) : List WEvent :=
  if req.url.path = "/health" then healthEvents else proxyEvents up

/-! ### `net.SplitHostPort` and the access logger -/

/-- Index of the last occurrence of a character (Go's
`last(hostport, ':')`). -/
def lastIdx (c : Char) : List Char → Option Nat
  | [] => none
  | x :: xs =>
    match lastIdx c xs with
    | some i => some (i + 1)
    | none => if x = c then some 0 else none

/-- Index of the first occurrence of a character (Go's `byteIndex`). -/
def firstIdx (c : Char) (l : List Char) : Option Nat :=
  List.findIdx? (fun x => x = c) l

/-- Go `net.SplitHostPort`.  Every Go error return becomes `none`:
missing colon, bracket-address errors, a colon inside the host, and
stray brackets.  (Indices are character positions; the characters `:`,
`[`, `]` are single bytes in UTF-8, so the split positions coincide with
Go's byte positions.) -/
def splitHostPortList (l : List Char) : Option (List Char × List Char) :=
  match lastIdx ':' l with
  | none => none
  | some i =>
    if l.head? = some '[' then
      match firstIdx ']' l with
      | none => none
      | some en =>
        if en + 1 = l.length then none
        else if en + 1 = i then
          if List.contains (l.drop 1) '[' then none
          else if List.contains (l.drop (en + 1)) ']' then none
          else some ((l.drop 1).take (en - 1), l.drop (i + 1))
        else none
    else
      if List.contains (l.take i) ':' then none
      else if List.contains l '[' then none
      else if List.contains l ']' then none
      else some (l.take i, l.drop (i + 1))

/-- The string-level wrapper of `splitHostPortList`. -/
def splitHostPort (s : String) : Option (String × String) :=
  Option.map (fun p => (⟨p.1⟩, ⟨p.2⟩)) (splitHostPortList s.data)

/-- The remote-address computation of `loggingMiddleware`: the host half
of `SplitHostPort` when it succeeds, the raw `RemoteAddr` string when it
fails. -/
def remoteIP (addr : String) : String :=
  match splitHostPort addr with
  | some (host, _) => host
  | none => addr

example : remoteIP "10.0.0.9:51000" = "10.0.0.9" := by decide
example : remoteIP "[2001:db8::1]:443" = "2001:db8::1" := by decide
example : remoteIP "@" = "@" := by decide
example : remoteIP "" = "" := by decide

/-- One access-log record: the data `loggingMiddleware` prints (the
elapsed wall-clock duration is real time and is not modelled). -/
structure LogRecord where
  method : String
  url : URL
  status : Nat
  remote : String
deriving DecidableEq

/-- Go `loggingMiddleware`: run the handler against a fresh logging
writer, then emit exactly one record carrying the recorded status. -/
def loggingMiddleware (handler : List WEvent) (req : Request) :
    RW × List LogRecord :=
  let lrw := runEvents LRW.init handler
  (lrw.rw, [⟨req.method, req.url, lrw.statusCode, remoteIP req.remoteAddr⟩])

/-- The served application: the logging middleware around the mux, as a
function of the transport outcome of the proxied round trip. -/
def serveApp (up : Option Response) (req : Request) : RW × List LogRecord :=
  loggingMiddleware (muxEvents up req) req

/-! ### Configuration (`main`'s environment handling) -/

/-- Go `unicode.IsSpace` (the White_Space code points). -/
def IsSpaceProp (n : Nat) : Prop :=
  n = 9 ∨ n = 10 ∨ n = 11 ∨ n = 12 ∨ n = 13 ∨ n = 32 ∨ n = 133 ∨ n = 160 ∨
  n = 5760 ∨ (8192 ≤ n ∧ n ≤ 8202) ∨ n = 8232 ∨ n = 8233 ∨ n = 8239 ∨
  n = 8287 ∨ n = 12288

instance (n : Nat) : Decidable (IsSpaceProp n) := by
  unfold IsSpaceProp
  infer_instance

/-- Whether Go trims a character as white space. -/
def isSpaceGo (c : Char) : Bool := decide (IsSpaceProp c.toNat)

/-- Go `strings.TrimSpace`: remove leading and trailing white space. -/
def trimSpace (s : String) : String :=
  ⟨(((s.data.dropWhile isSpaceGo).reverse.dropWhile isSpaceGo).reverse)⟩

example : trimSpace "  x y\t\n" = "x y" := by decide
example : trimSpace " \t " = "" := by decide

/-- The raw environment values read by `main` (`""` when unset). -/
structure Env where
  baseURL : String
  token : String
  listenAddr : String

/-- The configuration `main` runs with when it does not exit fatally. -/
structure Config where
  baseURL : String
  token : String
  listenAddr : String
deriving DecidableEq

/-- The `defaultListenAddr` constant of `src/main.go`. -/
def defaultListenAddr : String := ":8080"

/-- The configuration logic of `main`: trim all three environment
values, default the listen address, and fail (`none`, the `log.Fatalf`
path) when the trimmed base URL or token is empty. -/
def resolveConfig (e : Env) : Option Config :=
  if trimSpace e.baseURL = "" ∨ trimSpace e.token = "" then none
  else
    some ⟨trimSpace e.baseURL, trimSpace e.token,
      if trimSpace e.listenAddr = "" then defaultListenAddr
      else trimSpace e.listenAddr⟩

/-- The first status code a handler writes, if any. -/
def firstWriteHeader? : List WEvent → Option Nat
  | [] => none
  | .writeHeader c :: _ => some c
  | _ :: evs => firstWriteHeader? evs

theorem runEvents_append (l : LRW) (e₁ e₂ : List WEvent) :
    runEvents l (e₁ ++ e₂) = runEvents (runEvents l e₁) e₂ :=
  List.foldl_append _ _ _ _

/-- Every operation `copyHeader` performs is a header `Add`. -/
theorem copyHeaderEvents_addOnly (h : Header) :
    ∀ ev ∈ copyHeaderEvents h, ∃ k v, ev = WEvent.addHeader k v := by
  intro ev hev
  unfold copyHeaderEvents at hev
  rw [List.mem_flatten] at hev
  obtain ⟨l', hl', hev⟩ := hev
  rw [List.mem_map] at hl'
  obtain ⟨p, _, rfl⟩ := hl'
  rw [List.mem_map] at hev
  obtain ⟨v, _, rfl⟩ := hev
  exact ⟨p.1, v, rfl⟩

/-- Header `Add` operations touch neither the written status nor the
recorded status code. -/
theorem runEvents_addOnly (evs : List WEvent)
    (hadd : ∀ ev ∈ evs, ∃ k v, ev = WEvent.addHeader k v) (l : LRW) :
    (runEvents l evs).statusCode = l.statusCode ∧
    (runEvents l evs).rw.status = l.rw.status := by
  induction evs generalizing l with
  | nil => exact ⟨rfl, rfl⟩
  | cons ev t ih =>
    obtain ⟨k, v, rfl⟩ := hadd ev (List.mem_cons_self _ _)
    have hrec := ih (fun e he => hadd e (List.mem_cons_of_mem _ he))
      (runEvent l (.addHeader k v))
    simpa [runEvents, runEvent] using hrec

theorem firstWriteHeader?_addOnly_append (evs l₂ : List WEvent)
    (hadd : ∀ ev ∈ evs, ∃ k v, ev = WEvent.addHeader k v) :
    firstWriteHeader? (evs ++ l₂) = firstWriteHeader? l₂ := by
  induction evs with
  | nil => rfl
  | cons ev t ih =>
    obtain ⟨k, v, rfl⟩ := hadd ev (List.mem_cons_self _ _)
    simpa [firstWriteHeader?] using
      ih (fun e he => hadd e (List.mem_cons_of_mem _ he))

/-- The response half of the middleware output depends only on the
handler. -/
theorem loggingMiddleware_fst (evs : List WEvent) (req : Request) :
    (loggingMiddleware evs req).1 = (runEvents LRW.init evs).rw := rfl

/-- C4: when the transport round trip fails, the forwarded request is
answered with the fixed 502 response of `http.Error` — constant status,
headers and body, mentioning no upstream or credential data — and the
error path is the branch on which no response rewrite (hop-by-hop strip
of a response) can run, since no upstream response exists. -/
theorem upstream_failure_translated (req : Request) (h : req.url.path ≠ "/health") :
    (serveApp none req).1.status = some 502 ∧
    sentStatus (serveApp none req).1 = 502 ∧
    (serveApp none req).1.body = badGatewayMsg ++ "\n" ∧
    (serveApp none req).1.header =
      [("Content-Type", ["text/plain; charset=utf-8"]),
       ("X-Content-Type-Options", ["nosniff"])] ∧
    muxEvents none req = httpErrorEvents badGatewayMsg 502 ∧
    (∀ r : Response, muxEvents (some r) req =
      copyHeaderEvents (stripHopHeaders r.header) ++
        [WEvent.writeHeader r.status, WEvent.write r.body]) := by
  have hmux : muxEvents none req = httpErrorEvents badGatewayMsg 502 := by
    unfold muxEvents
    rw [if_neg h]
    rfl
  refine ⟨?_, ?_, ?_, ?_, hmux, fun r => ?_⟩
  · show (loggingMiddleware (muxEvents none req) req).1.status = some 502
    rw [hmux, loggingMiddleware_fst]
    decide
  · show sentStatus (loggingMiddleware (muxEvents none req) req).1 = 502
    rw [hmux, loggingMiddleware_fst]
    decide
  · show (loggingMiddleware (muxEvents none req) req).1.body = badGatewayMsg ++ "\n"
    rw [hmux, loggingMiddleware_fst]
    decide
  · show (loggingMiddleware (muxEvents none req) req).1.header = _
    rw [hmux, loggingMiddleware_fst]
    decide
  · unfold muxEvents
    rw [if_neg h]
    rfl

/-- Witness for C4 at a concrete non-health request. -/
theorem upstream_failure_translated_witness :
    requestW.url.path ≠ "/health" ∧
    sentStatus (serveApp none requestW).1 = 502 ∧
    (serveApp none requestW).1.body = badGatewayMsg ++ "\n" := by
  have h := upstream_failure_translated requestW (by decide)
  exact ⟨by decide, h.2.1, h.2.2.1⟩

/-- C5: a `GET` request to `/health` is answered from the health
handler — status 200, the exact JSON body, a JSON content type — the
handler's operations never include a proxy event, and the whole outcome
is identical for every transport state, so the request is never
forwarded upstream. -/
theorem health_endpoint_get (req : Request) (up up' : Option Response)
    (hp : req.url.path = "/health") (hm : req.method = "GET") :
    sentStatus (serveApp up req).1 = 200 ∧
    (serveApp up req).1.body = "\x7b\"status\":\"ok\"\x7d" ∧
    Header.get (serveApp up req).1.header "Content-Type" = "application/json" ∧
    muxEvents up req = healthEvents ∧
    serveApp up req = serveApp up' req := by
  have hmux : ∀ u : Option Response, muxEvents u req = healthEvents := by
    intro u
    unfold muxEvents
    rw [if_pos hp]
  refine ⟨?_, ?_, ?_, hmux up, ?_⟩
  · show sentStatus (loggingMiddleware (muxEvents up req) req).1 = 200
    rw [hmux up, loggingMiddleware_fst]
    decide
  · show (loggingMiddleware (muxEvents up req) req).1.body = _
    rw [hmux up, loggingMiddleware_fst]
    decide
  · show Header.get (loggingMiddleware (muxEvents up req) req).1.header _ = _
    rw [hmux up, loggingMiddleware_fst]
    decide
  · show loggingMiddleware (muxEvents up req) req = loggingMiddleware (muxEvents up' req) req
    rw [hmux up, hmux up']

/-- A concrete health request used in witnesses. -/
def healthReqW : Request :=
  ⟨"GET", ⟨"http", "wrap.local", "/health", "", ""⟩, "wrap.local",
    "127.0.0.1:39000", [], []⟩

/-- Witness for C5 at a concrete request, with and without a reachable
upstream. -/
theorem health_endpoint_get_witness :
    healthReqW.url.path = "/health" ∧ healthReqW.method = "GET" ∧
    sentStatus (serveApp none healthReqW).1 = 200 ∧
    (serveApp none healthReqW).1.body = "\x7b\"status\":\"ok\"\x7d" ∧
    serveApp none healthReqW = serveApp (some ⟨500, [], "boom"⟩) healthReqW := by
  have h := health_endpoint_get healthReqW none (some ⟨500, [], "boom"⟩) rfl rfl
  exact ⟨rfl, rfl, h.1, h.2.1, h.2.2.2.2⟩

/-- C10: the health handler performs no method validation: a request to
`/health` with any method gets the same 200/JSON response. -/
theorem health_any_method (req : Request) (up : Option Response)
    (hp : req.url.path = "/health") :
    sentStatus (serveApp up req).1 = 200 ∧
    (serveApp up req).1.body = "\x7b\"status\":\"ok\"\x7d" ∧
    Header.get (serveApp up req).1.header "Content-Type" = "application/json" ∧
    (∀ m : String, (serveApp up { req with method := m }).1 = (serveApp up req).1) := by
  have hmux : ∀ r : Request, r.url.path = "/health" →
      muxEvents up r = healthEvents := by
    intro r hr
    unfold muxEvents
    rw [if_pos hr]
  refine ⟨?_, ?_, ?_, fun m => ?_⟩
  · show sentStatus (loggingMiddleware (muxEvents up req) req).1 = 200
    rw [hmux req hp, loggingMiddleware_fst]
    decide
  · show (loggingMiddleware (muxEvents up req) req).1.body = _
    rw [hmux req hp, loggingMiddleware_fst]
    decide
  · show Header.get (loggingMiddleware (muxEvents up req) req).1.header _ = _
    rw [hmux req hp, loggingMiddleware_fst]
    decide
  · show (loggingMiddleware (muxEvents up { req with method := m }) _).1 =
      (loggingMiddleware (muxEvents up req) _).1
    rw [hmux req hp, hmux { req with method := m } hp,
      loggingMiddleware_fst, loggingMiddleware_fst]

/-- Witness for C10: `DELETE /health` gets the same response as
`GET /health`. -/
theorem health_any_method_witness :
    healthReqW.url.path = "/health" ∧
    sentStatus (serveApp none healthReqW).1 = 200 ∧
    (serveApp none { healthReqW with method := "DELETE" }).1 =
      (serveApp none healthReqW).1 := by
  have h := health_any_method healthReqW none rfl
  exact ⟨rfl, h.1, h.2.2.2 "DELETE"⟩

/-- C6: the served application emits exactly one access-log record per
request, whose status field is the status actually sent to the client,
which in turn is the first status code the handler wrote (200 when the
handler never wrote one).  This holds on every path: health, proxied
response, and translated transport failure. -/
theorem access_log_status (up : Option Response) (req : Request) :
    (serveApp up req).2 =
      [⟨req.method, req.url, sentStatus (serveApp up req).1,
        remoteIP req.remoteAddr⟩] ∧
    sentStatus (serveApp up req).1 =
      (firstWriteHeader? (muxEvents up req)).getD 200 := by
  have hkey : (runEvents LRW.init (muxEvents up req)).statusCode =
      sentStatus (runEvents LRW.init (muxEvents up req)).rw ∧
      sentStatus (runEvents LRW.init (muxEvents up req)).rw =
        (firstWriteHeader? (muxEvents up req)).getD 200 := by
    by_cases hp : req.url.path = "/health"
    · have hevs : muxEvents up req = healthEvents := by
        unfold muxEvents
        rw [if_pos hp]
      rw [hevs]
      exact ⟨by decide, by decide⟩
    · cases up with
      | none =>
        have hevs : muxEvents none req = httpErrorEvents badGatewayMsg 502 := by
          unfold muxEvents
          rw [if_neg hp]
          rfl
        rw [hevs]
        exact ⟨by decide, by decide⟩
      | some r =>
        have hevs : muxEvents (some r) req =
            copyHeaderEvents (stripHopHeaders r.header) ++
              [WEvent.writeHeader r.status, WEvent.write r.body] := by
          unfold muxEvents
          rw [if_neg hp]
          rfl
        rw [hevs, runEvents_append,
          firstWriteHeader?_addOnly_append _ _ (copyHeaderEvents_addOnly _)]
        obtain ⟨hsc, hst⟩ :=
          runEvents_addOnly _ (copyHeaderEvents_addOnly (stripHopHeaders r.header))
            LRW.init
        simp only [runEvents] at hst ⊢
        have hst' : (List.foldl runEvent LRW.init
            (copyHeaderEvents (stripHopHeaders r.header))).rw.status = none := by
          rw [hst]
          rfl
        constructor
        · simp [runEvent, RW.writeHeader, RW.write, hst', sentStatus]
        · simp [runEvent, RW.writeHeader, RW.write, hst', sentStatus,
            firstWriteHeader?]
  constructor
  · show ([⟨req.method, req.url, (runEvents LRW.init (muxEvents up req)).statusCode,
        remoteIP req.remoteAddr⟩] : List LogRecord) = _
    rw [hkey.1]
    rfl
  · exact hkey.2

theorem string_mk_data (s : String) : (⟨s.data⟩ : String) = s := by
  cases s
  rfl

theorem lastIdx_eq_none (c : Char) (l : List Char) (h : c ∉ l) :
    lastIdx c l = none := by
  induction l with
  | nil => rfl
  | cons x xs ih =>
    have hx : ¬(x = c) := fun hx => h (hx ▸ List.mem_cons_self x xs)
    have hxs := ih (fun hm => h (List.mem_cons_of_mem x hm))
    simp [lastIdx, hxs, hx]

/-- The last occurrence of `c` in `l₁ ++ c :: l₂`, when `l₂` has no `c`,
sits at index `l₁.length`. -/
theorem lastIdx_append (l₁ l₂ : List Char) (c : Char) (h : c ∉ l₂) :
    lastIdx c (l₁ ++ c :: l₂) = some l₁.length := by
  induction l₁ with
  | nil =>
    show lastIdx c (c :: l₂) = some 0
    simp [lastIdx, lastIdx_eq_none c l₂ h]
  | cons a t ih =>
    show lastIdx c (a :: (t ++ c :: l₂)) = some (t.length + 1)
    simp [lastIdx, ih]

/-- C7: the access logger's remote-address computation is a total
function of the address string: on a `host:port` input (no stray colon
or bracket) it returns the host half, and whenever `SplitHostPort`
fails it returns the raw string unchanged. -/
theorem remoteIP_total (host port : String)
    (hh : ':' ∉ host.data ∧ '[' ∉ host.data ∧ ']' ∉ host.data)
    (hpt : ':' ∉ port.data ∧ '[' ∉ port.data ∧ ']' ∉ port.data) :
    splitHostPort (host ++ ":" ++ port) = some (host, port) ∧
    remoteIP (host ++ ":" ++ port) = host ∧
    (∀ addr, splitHostPort addr = none → remoteIP addr = addr) := by
  have hdata : (host ++ ":" ++ port).data = host.data ++ ':' :: port.data := by
    simp
  have hsplit : splitHostPort (host ++ ":" ++ port) = some (host, port) := by
    have hlist : splitHostPortList (host.data ++ ':' :: port.data) =
        some (host.data, port.data) := by
      unfold splitHostPortList
      rw [lastIdx_append host.data port.data ':' hpt.1]
      dsimp only
      have hhead : ¬((host.data ++ ':' :: port.data).head? = some '[') := by
        cases hd : host.data with
        | nil => simp [hd]
        | cons a t =>
          have ha : a ∈ host.data := by
            rw [hd]
            exact List.mem_cons_self a t
          have : ¬(a = '[') := fun hx => hh.2.1 (hx ▸ ha)
          simp [hd, this]
      rw [if_neg hhead]
      have htake : (host.data ++ ':' :: port.data).take host.data.length = host.data :=
        List.take_left' rfl
      rw [htake]
      rw [if_neg (by simpa using hh.1)]
      rw [if_neg (by
        simp
        exact ⟨hh.2.1, hpt.2.1⟩)]
      rw [if_neg (by
        simp
        exact ⟨hh.2.2, hpt.2.2⟩)]
      have hdrop : (host.data ++ ':' :: port.data).drop (host.data.length + 1)
          = port.data := by
        have hsplit2 : host.data ++ ':' :: port.data = (host.data ++ [':']) ++ port.data := by
          simp
        rw [hsplit2]
        exact List.drop_left' (by simp)
      rw [hdrop]
    unfold splitHostPort
    rw [hdata, hlist]
    simp [string_mk_data]
  refine ⟨hsplit, ?_, ?_⟩
  · unfold remoteIP
    rw [hsplit]
  · intro addr hnone
    unfold remoteIP
    rw [hnone]

/-- Witness for C7: a concrete `host:port` address and a concrete
unsplittable address. -/
theorem remoteIP_total_witness :
    splitHostPort "10.0.0.9:51000" = some ("10.0.0.9", "51000") ∧
    remoteIP "10.0.0.9:51000" = "10.0.0.9" ∧
    remoteIP "@" = "@" := by
  have h := remoteIP_total "10.0.0.9" "51000" (by decide) (by decide)
  have hs : splitHostPort ("10.0.0.9" ++ ":" ++ "51000") =
      splitHostPort "10.0.0.9:51000" := by decide
  exact ⟨by rw [← hs]; exact h.1, by
    have := h.2.1
    rwa [show ("10.0.0.9" ++ ":" ++ "51000" : String) = "10.0.0.9:51000" from by decide]
      at this,
    h.2.2 "@" (by decide)⟩

/-- A string made only of white space trims to the empty string. -/
theorem trimSpace_all_space (s : String) (h : s.data.all isSpaceGo = true) :
    trimSpace s = "" := by
  unfold trimSpace
  have h1 : s.data.dropWhile isSpaceGo = [] := by
    rw [List.dropWhile_eq_nil_iff]
    intro x hx
    exact (List.all_eq_true.mp h) x hx
  rw [h1]
  rfl

/-- C9: every environment value is trimmed before use: a base URL or
token consisting only of white space is startup-fatal, a whitespace-only
listen address falls back to the default port, and the configuration the
server runs with carries exactly the trimmed values. -/
theorem config_trimming (e : Env) :
    (e.baseURL.data.all isSpaceGo = true → resolveConfig e = none) ∧
    (e.token.data.all isSpaceGo = true → resolveConfig e = none) ∧
    (∀ c, resolveConfig e = some c →
      c.baseURL = trimSpace e.baseURL ∧ c.token = trimSpace e.token ∧
      c.baseURL ≠ "" ∧ c.token ≠ "" ∧
      (e.listenAddr.data.all isSpaceGo = true → c.listenAddr = defaultListenAddr) ∧
      (trimSpace e.listenAddr ≠ "" → c.listenAddr = trimSpace e.listenAddr)) := by
  refine ⟨?_, ?_, ?_⟩
  · intro h
    unfold resolveConfig
    rw [if_pos (Or.inl (trimSpace_all_space _ h))]
  · intro h
    unfold resolveConfig
    rw [if_pos (Or.inr (trimSpace_all_space _ h))]
  · intro c hc
    unfold resolveConfig at hc
    by_cases hcond : trimSpace e.baseURL = "" ∨ trimSpace e.token = ""
    · rw [if_pos hcond] at hc
      exact absurd hc (by simp)
    · rw [if_neg hcond] at hc
      push_neg at hcond
      have hcinv := (Option.some.injEq _ _).mp hc
      subst hcinv
      refine ⟨rfl, rfl, hcond.1, hcond.2, ?_, ?_⟩
      · intro h
        show (if trimSpace e.listenAddr = "" then defaultListenAddr
          else trimSpace e.listenAddr) = defaultListenAddr
        rw [if_pos (trimSpace_all_space _ h)]
      · intro h
        show (if trimSpace e.listenAddr = "" then defaultListenAddr
          else trimSpace e.listenAddr) = trimSpace e.listenAddr
        rw [if_neg h]

/-- Witness for C9: whitespace-only token is fatal; whitespace-only
listen address defaults; values arrive trimmed. -/
theorem config_trimming_witness :
    resolveConfig ⟨" https://api.mist.com ", " \t ", ""⟩ = none ∧
    resolveConfig ⟨" https://api.mist.com ", " tok ", " \t "⟩ =
      some ⟨"https://api.mist.com", "tok", ":8080"⟩ := by
  have h1 := (config_trimming ⟨" https://api.mist.com ", " \t ", ""⟩).2.1 (by decide)
  refine ⟨h1, ?_⟩
  have h2 := (config_trimming ⟨" https://api.mist.com ", " tok ", " \t "⟩).2.2
  cases hc : resolveConfig ⟨" https://api.mist.com ", " tok ", " \t "⟩ with
  | none =>
    exact absurd hc (by decide)
  | some c =>
    obtain ⟨hb, ht, _, _, hl, _⟩ := h2 c hc
    have hl' := hl (by decide)
    cases c
    simp only at hb ht hl'
    rw [hb, ht, hl']
    have : trimSpace " https://api.mist.com " = "https://api.mist.com" := by decide
    rw [this]
    have : trimSpace " tok " = "tok" := by decide
    rw [this]
    rfl

end MistProxy
